import Mathlib

/-!
Verification of the pulp-dsp RMS parallel-reduction core and the 8-bit
complex-conjugate kernel, as a shallow embedding of the C sources.

Machine integers are modelled as `Nat`/`Int` with explicit reductions
modulo powers of two where C overflow or narrowing matters:

* the kernel accumulator `int32_t accu` wraps modulo `2^32`; since every
  added term `(temp * temp) >> fracBits` is non-negative, the accumulator
  bit pattern equals the running sum modulo `2^32` and is kept as a `Nat`;
* the store `*pRes = accu / blockSize` divides `accu` reinterpreted as
  `uint32_t` (C usual arithmetic conversions: `int32_t / uint32_t` is an
  unsigned division) and narrows to `int8_t` modulo `2^8`, two's complement;
* source memory is a total function `Nat → Int`, so out-of-range worker
  reads are observable as indices rather than faults.
-/

/-- `2^32`, the wraparound modulus of the 32-bit accumulator. -/
def M32 : Nat := 4294967296

/-- Narrowing of a 32-bit value to `int8_t`, two's complement (mod `2^8`,
reinterpreted as signed).  This is what the C stores `*pRes = ...` perform. -/
def int8ofInt (v : Int) : Int := (v + 128) % 256 - 128

/-- One accumulation term of the kernel: `(temp1 * temp1) >> fracBits` with
`temp1` the sign-extended sample.  The square is non-negative, so the C
arithmetic right shift is a `Nat` shift on `temp1².natAbs`. -/
def sqTerm (x : Int) (fracBits : Nat) : Nat := (x.natAbs * x.natAbs) >>> fracBits

/-- Bit pattern of the `int32_t accu` after the simple (non-unrolled) loop of
`plp_rms_q8s_rv32im`: each `accu += (temp1*temp1) >> fracBits` wraps mod `2^32`. -/
def accuBits (src : List Int) (fracBits : Nat) : Nat :=
  src.foldl (fun a x => (a + sqTerm x fracBits) % M32) 0

/-- `plp_rms_q8s_rv32im` (simple-loop branch): accumulate the shifted squares,
then `*pRes = accu / blockSize`.  `blockSize` is the length of the sample list;
the division is the C `int32_t / uint32_t`, i.e. unsigned on the accumulator's
bit pattern, and the store narrows to `int8_t`. -/
def plp_rms_q8s_rv32im (src : List Int) (fracBits : Nat) : Int :=
  int8ofInt (Int.ofNat (accuBits src fracBits / src.length))

/-- Accumulator of the `PLP_MATH_LOOPUNROLL` branch of `plp_rms_q8s_rv32im`:
`blockSize >> 1` iterations read two samples each, then one trailing sample
when `blockSize` is odd. -/
def accuBitsUnroll (fracBits : Nat) : List Int → Nat → Nat
  | [], a => a
  | [x], a => (a + sqTerm x fracBits) % M32
  | x :: y :: rest, a =>
      accuBitsUnroll fracBits rest (((a + sqTerm x fracBits) % M32 + sqTerm y fracBits) % M32)

/-- `plp_rms_q8s_rv32im`, `PLP_MATH_LOOPUNROLL` branch. -/
def plp_rms_q8s_rv32im_unroll (src : List Int) (fracBits : Nat) : Int :=
  int8ofInt (Int.ofNat (accuBitsUnroll fracBits src 0 / src.length))

/-- `blockSizeP` of `plp_rms_q8p_xpulpv2`: `(S->blockSize + S->nPE - 1) / S->nPE`. -/
def blockSizeP (blockSize nPE : Nat) : Nat := (blockSize + nPE - 1) / nPE

/-- `blockSizeC` of `plp_rms_q8p_xpulpv2`: starts as `blockSizeP`; the last
core (`rt_core_id() == S->nPE - 1`) takes `S->blockSize % blockSizeP` instead
when `S->blockSize % S->nPE` is non-zero. -/
def blockSizeC (blockSize nPE coreId : Nat) : Nat :=
  if coreId = nPE - 1 ∧ blockSize % nPE ≠ 0 then blockSize % blockSizeP blockSize nPE
  else blockSizeP blockSize nPE

/-- Start offset of a core's slice: `pSrc + rt_core_id() * blockSizeP`. -/
def sliceStart (blockSize nPE coreId : Nat) : Nat := coreId * blockSizeP blockSize nPE

/-- The source indices a worker reads: the contiguous range
`[sliceStart, sliceStart + blockSizeC)`. -/
def workerReadIndices (blockSize nPE coreId : Nat) : List Nat :=
  (List.range (blockSizeC blockSize nPE coreId)).map
    (fun i => sliceStart blockSize nPE coreId + i)

/-- The sample slice a worker passes to the single-core kernel. -/
def workerSlice (mem : Nat → Int) (blockSize nPE coreId : Nat) : List Int :=
  (workerReadIndices blockSize nPE coreId).map mem

/-- Modelled from the spec: the single-core kernel `plp_rms_q8s_xpulpv2`
called by the worker is not among the provided sources; per the spec the
single-core kernel contract (sum of `sample[i]^2 >> fracBits` in a signed
32-bit accumulator, divided by the block size, narrowed to signed 8-bit) is
the one implemented by `plp_rms_q8s_rv32im`, of which the xpulpv2 variant is
an ISA-specialisation with identical numeric behaviour. -/
def plp_rms_q8s_xpulpv2 (src : List Int) (fracBits : Nat) : Int :=
  plp_rms_q8s_rv32im src fracBits

/-- `plp_rms_q8p_xpulpv2`: the per-core worker.  It computes its slice bounds
from the task descriptor and core id and runs the single-core kernel on the
slice, producing the `int8_t` partial value written to `S->pRes + rt_core_id()`. -/
def plp_rms_q8p_xpulpv2 (mem : Nat → Int) (blockSize fracBits nPE coreId : Nat) : Int :=
  plp_rms_q8s_xpulpv2 (workerSlice mem blockSize nPE coreId) fracBits

/-- Observable outcome of one `plp_rms_q8_parallel` call:
whether the wrong-context `printf` diagnostic ran, whether `rt_alloc` was
called, whether `rt_team_fork` was called and with how many cores, and the
value held by the caller's `*pRes` when the call returns. -/
structure DispatchTrace where
  diagnostic : Bool
  allocated : Bool
  forkCalled : Bool
  forkWidth : Nat
  resFinal : Int
deriving DecidableEq

/-- `plp_rms_q8_parallel`: the glue dispatcher.
`onCluster` is `rt_cluster_id() != ARCHI_FC_CID`; `resOld` is the value in the
caller's `*pRes` before the call.  On the cluster side it forks `nPE` workers
(with `resultsBuffer` aliased to `pRes` when `nPE <= 1`), then for `nPE > 1`
sums the `nPE` partial `int8_t` results into `int32_t accu` and stores
`accu / nPE` (signed division, `int32_t / int`), else re-stores
`*pRes = *resultsBuffer`. -/
def plp_rms_q8_parallel (mem : Nat → Int) (blockSize fracBits nPE : Nat)
    (resOld : Int) (onCluster : Bool) : DispatchTrace :=
  if onCluster = false then
    { diagnostic := true, allocated := false, forkCalled := false, forkWidth := 0
      resFinal := resOld }
  else if 1 < nPE then
    let perCore := (List.range nPE).map (plp_rms_q8p_xpulpv2 mem blockSize fracBits nPE)
    let accu : Int := perCore.foldl (· + ·) 0
    -- `accu` stays inside int32: it sums at most 255 values from [-128, 127].
    { diagnostic := false, allocated := true, forkCalled := true, forkWidth := nPE
      resFinal := int8ofInt (Int.tdiv accu nPE) }
  else if nPE = 1 then
    -- resultsBuffer = pRes: worker 0 writes the kernel value into *pRes,
    -- then `*pRes = *resultsBuffer` re-stores that same value.
    { diagnostic := false, allocated := false, forkCalled := true, forkWidth := 1
      resFinal := plp_rms_q8p_xpulpv2 mem blockSize fracBits 1 0 }
  else
    -- nPE = 0: resultsBuffer = pRes, fork of zero workers, then
    -- `*pRes = *resultsBuffer` re-stores the old value.
    { diagnostic := false, allocated := false, forkCalled := true, forkWidth := 0
      resFinal := resOld }

/-- One step of `plp_cmplx_conj_i8_rv32im`'s loop body: copy when `sign == 1`,
otherwise negate with `INT8_MIN` saturated to `INT8_MAX`. -/
def conjStep (sign x : Int) : Int :=
  if sign = 1 then x else if x = -128 then 127 else -x

/-- The `while (blkCnt > 0U)` loop of `plp_cmplx_conj_i8_rv32im`: `sign`
alternates `1, -1, 1, ...` via `sign *= -1` while samples are consumed in
order.  The input list holds the `2 * numSamples` interleaved values. -/
def conjAux (sign : Int) : List Int → List Int
  | [] => []
  | x :: rest => conjStep sign x :: conjAux (sign * -1) rest

/-- `plp_cmplx_conj_i8_rv32im` on the interleaved (re, im, re, im, ...) data. -/
def plp_cmplx_conj_i8_rv32im (src : List Int) : List Int := conjAux 1 src

/-- Transcription of claim C1's output formula: the sum accumulated in a
*signed* 32-bit accumulator (two's-complement wrap of the running sum) and
then divided by `blockSize` with signed division truncated toward zero,
narrowed to signed 8-bit.  Declared only to be compared against the code's
`plp_rms_q8s_rv32im`. -/
def toSigned32 (n : Nat) : Int :=
  if n < 2147483648 then (n : Int) else (n : Int) - 4294967296

/-- Claim C1's formula for the kernel output (see `toSigned32`). -/
def rmsClaimedC1 (src : List Int) (fracBits : Nat) : Int :=
  int8ofInt (Int.tdiv (toSigned32 (accuBits src fracBits)) src.length)

/-! ## Helper lemmas -/

theorem accuBits_foldl (f : Nat) :
    ∀ (l : List Int) (a : Nat),
      List.foldl (fun a x => (a + sqTerm x f) % M32) (a % M32) l
        = (a + (l.map (fun x => sqTerm x f)).sum) % M32 := by
  intro l
  induction l with
  | nil => intro a; simp
  | cons x t ih =>
      intro a
      simp only [List.foldl_cons, List.map_cons, List.sum_cons]
      rw [Nat.mod_add_mod, ih (a + sqTerm x f), Nat.add_assoc]

theorem accuBits_eq_sum (l : List Int) (f : Nat) :
    accuBits l f = (l.map (fun x => sqTerm x f)).sum % M32 := by
  have h := accuBits_foldl f l 0
  simpa [accuBits] using h

theorem accuBits_replicate (n : Nat) (x : Int) (f : Nat) :
    accuBits (List.replicate n x) f = (n * sqTerm x f) % M32 := by
  rw [accuBits_eq_sum, List.map_replicate, List.sum_const_nat]

theorem accuBitsUnroll_eq (f : Nat) :
    ∀ (l : List Int) (a : Nat),
      accuBitsUnroll f l a = List.foldl (fun a x => (a + sqTerm x f) % M32) a l
  | [], _ => rfl
  | [_], _ => rfl
  | x :: y :: rest, a => by
      show accuBitsUnroll f rest _ = _
      rw [accuBitsUnroll_eq f rest]
      rfl

theorem int8ofInt_mem_range (v : Int) : -128 ≤ int8ofInt v ∧ int8ofInt v ≤ 127 := by
  unfold int8ofInt
  have h1 : 0 ≤ (v + 128) % 256 := Int.emod_nonneg _ (by norm_num)
  have h2 : (v + 128) % 256 < 256 := Int.emod_lt_of_pos _ (by norm_num)
  omega

theorem conjAux_length (sign : Int) (l : List Int) :
    (conjAux sign l).length = l.length := by
  induction l generalizing sign with
  | nil => rfl
  | cons x t ih => simp [conjAux, ih]

theorem conjAux_getD (l : List Int) :
    ∀ i, i < l.length →
      ((conjAux 1 l).getD i 0
          = if i % 2 = 0 then l.getD i 0
            else if l.getD i 0 = -128 then 127 else -l.getD i 0) ∧
      ((conjAux (-1) l).getD i 0
          = if i % 2 = 0 then (if l.getD i 0 = -128 then 127 else -l.getD i 0)
            else l.getD i 0) := by
  induction l with
  | nil => intro i h; simp at h
  | cons x t ih =>
      intro i h
      cases i with
      | zero =>
          constructor
          · simp [conjAux, conjStep]
          · simp [conjAux, conjStep]
      | succ j =>
          have hj : j < t.length := by simpa using h
          have IH := ih j hj
          have hsg : (1 : Int) * -1 = -1 := by norm_num
          have hsg2 : (-1 : Int) * -1 = 1 := by norm_num
          constructor
          · simp only [conjAux, hsg, List.getD_cons_succ]
            rw [IH.2]
            rcases Nat.mod_two_eq_zero_or_one j with hj2 | hj2
            · have hj3 : (j + 1) % 2 = 1 := by omega
              simp [hj2, hj3]
            · have hj3 : (j + 1) % 2 = 0 := by omega
              simp [hj2, hj3]
          · simp only [conjAux, hsg2, List.getD_cons_succ]
            rw [IH.1]
            rcases Nat.mod_two_eq_zero_or_one j with hj2 | hj2
            · have hj3 : (j + 1) % 2 = 1 := by omega
              simp [hj2, hj3]
            · have hj3 : (j + 1) % 2 = 0 := by omega
              simp [hj2, hj3]

/-! ## Claim theorems -/

/-- Claim C8: the loop-unrolled variant of the single-core kernel (two
elements per iteration plus one trailing element when the block size is odd)
computes exactly the same accumulator value and the same final result as the
simple one-element-per-iteration loop, for every input vector and fracBits. -/
theorem claim_C8_unroll_equiv (src : List Int) (fracBits : Nat) :
    accuBitsUnroll fracBits src 0 = accuBits src fracBits ∧
    plp_rms_q8s_rv32im_unroll src fracBits = plp_rms_q8s_rv32im src fracBits := by
  have h := accuBitsUnroll_eq fracBits src 0
  exact ⟨h, by rw [plp_rms_q8s_rv32im_unroll, plp_rms_q8s_rv32im, accuBits, h]⟩

/-- Claim C1 counterexample: on the 645000-element vector of samples 100 with
fracBits 0, the running sum 6450000000 wraps the signed 32-bit accumulator to
the negative value -2139934592.  The claim's formula — that wrapped signed
accumulator divided by blockSize with truncation toward zero, narrowed to
signed 8-bit — yields 11, but the code's store (`int32_t / uint32_t` is an
unsigned division of the accumulator's bit pattern 2155032704) yields 13. -/
theorem claim_C1_counterexample :
    plp_rms_q8s_rv32im (List.replicate 645000 100) 0 = 13 ∧
    rmsClaimedC1 (List.replicate 645000 100) 0 = 11 ∧
    (13 : Int) ≠ 11 := by
  have hacc : accuBits (List.replicate 645000 100) 0 = 2155032704 := by
    rw [accuBits_replicate]
    decide
  refine ⟨?_, ?_, by decide⟩
  · rw [plp_rms_q8s_rv32im, hacc, List.length_replicate]
    decide
  · rw [rmsClaimedC1, hacc, List.length_replicate]
    decide

/-- Claim C1 (amended): for every input of blockSize ≥ 1 samples and every
fracBits such that the sum Σ (sample[i]² >> fracBits) stays below 2^31 (no
accumulator overflow), the kernel writes accu / blockSize truncated toward
zero and narrowed to signed 8-bit, where accu is that sum; with fracBits = 0
it computes the unscaled mean of squares, and on the 8-element all-ones
vector with fracBits = 0 it returns 1. -/
theorem claim_C1_amended (src : List Int) (fracBits : Nat)
    (_h1 : 1 ≤ src.length)
    (h2 : (src.map (fun x => sqTerm x fracBits)).sum < 2147483648) :
    plp_rms_q8s_rv32im src fracBits = rmsClaimedC1 src fracBits ∧
    plp_rms_q8s_rv32im src fracBits
      = int8ofInt (Int.tdiv (Int.ofNat ((src.map (fun x => sqTerm x fracBits)).sum))
          (Int.ofNat src.length)) ∧
    (fracBits = 0 →
      plp_rms_q8s_rv32im src 0
        = int8ofInt (Int.ofNat ((src.map (fun x => x.natAbs * x.natAbs)).sum
            / src.length))) ∧
    plp_rms_q8s_rv32im (List.replicate 8 1) 0 = 1 := by
  have hsum : accuBits src fracBits = (src.map (fun x => sqTerm x fracBits)).sum := by
    rw [accuBits_eq_sum]
    exact Nat.mod_eq_of_lt (by unfold M32; omega)
  refine ⟨?_, ?_, ?_, by decide⟩
  · rw [plp_rms_q8s_rv32im, rmsClaimedC1, hsum, toSigned32, if_pos h2]
    rfl
  · rw [plp_rms_q8s_rv32im, hsum]
    rfl
  · intro hf
    subst hf
    have hterm : (fun x : Int => sqTerm x 0) = fun x : Int => x.natAbs * x.natAbs := by
      funext x
      rw [sqTerm, Nat.shiftRight_zero]
    rw [plp_rms_q8s_rv32im, hsum, hterm]

/-- Witness for the amended claim C1, at the 8-element all-ones vector. -/
theorem claim_C1_amended_witness :
    plp_rms_q8s_rv32im (List.replicate 8 1) 0 = 1 :=
  (claim_C1_amended (List.replicate 8 1) 0 (by decide) (by decide)).2.2.2

/-- Claim C10: whenever the accumulator quotient accu / blockSize exceeds the
signed 8-bit range, the kernel stores the quotient narrowed by wraparound
modulo 2^8 reinterpreted as signed (not saturated), so the stored value
differs from the true quotient; on the all-127 8-element vector with
fracBits 0 the quotient is 16129 and the stored value is 1. -/
theorem claim_C10_wrap_narrowing (src : List Int) (fracBits : Nat)
    (_h1 : 1 ≤ src.length) (h2 : 127 < accuBits src fracBits / src.length) :
    plp_rms_q8s_rv32im src fracBits
        = int8ofInt (Int.ofNat (accuBits src fracBits / src.length)) ∧
    plp_rms_q8s_rv32im src fracBits ≠ Int.ofNat (accuBits src fracBits / src.length) ∧
    accuBits (List.replicate 8 127) 0 / (List.replicate 8 (127:Int)).length = 16129 ∧
    plp_rms_q8s_rv32im (List.replicate 8 127) 0 = 1 := by
  refine ⟨rfl, ?_, by decide, by decide⟩
  have hb := int8ofInt_mem_range (Int.ofNat (accuBits src fracBits / src.length))
  have hq : (128 : Int) ≤ Int.ofNat (accuBits src fracBits / src.length) :=
    Int.ofNat_le.mpr h2
  intro heq
  rw [plp_rms_q8s_rv32im] at heq
  omega

/-- Witness for claim C10, at the 8-element all-127 vector with fracBits 0. -/
theorem claim_C10_wrap_narrowing_witness :
    plp_rms_q8s_rv32im (List.replicate 8 127) 0 = 1 :=
  (claim_C10_wrap_narrowing (List.replicate 8 127) 0 (by decide) (by decide)).2.2.2

/-- Claim C3: the per-core worker assigns core coreId the contiguous slice
starting at offset coreId * blockSizeP, with blockSizeP = ceil(blockSize/nPE)
elements for every core except the last; the last core gets
blockSize % blockSizeP elements when blockSize % nPE ≠ 0 and blockSizeP
otherwise; when blockSize % nPE = 0 every slice has length blockSize / nPE,
and for blockSize = 7, nPE = 2 core 0 owns 4 elements and core 1 owns 3. -/
theorem claim_C3_partition (blockSize nPE coreId : Nat)
    (hb : 1 ≤ blockSize) (hn : 1 ≤ nPE) (_hc : coreId < nPE) :
    sliceStart blockSize nPE coreId = coreId * blockSizeP blockSize nPE ∧
    blockSize ≤ nPE * blockSizeP blockSize nPE ∧
    nPE * blockSizeP blockSize nPE < blockSize + nPE ∧
    (coreId ≠ nPE - 1 → blockSizeC blockSize nPE coreId = blockSizeP blockSize nPE) ∧
    (coreId = nPE - 1 → blockSize % nPE ≠ 0 →
        blockSizeC blockSize nPE coreId = blockSize % blockSizeP blockSize nPE) ∧
    (blockSize % nPE = 0 → blockSizeC blockSize nPE coreId = blockSize / nPE) ∧
    blockSizeC 7 2 0 = 4 ∧ blockSizeC 7 2 1 = 3 := by
  have hbounds : blockSize ≤ nPE * blockSizeP blockSize nPE ∧
      nPE * blockSizeP blockSize nPE < blockSize + nPE := by
    have hdm := Nat.div_add_mod (blockSize + nPE - 1) nPE
    have hmlt : (blockSize + nPE - 1) % nPE < nPE := Nat.mod_lt _ (by omega)
    unfold blockSizeP
    generalize hM : nPE * ((blockSize + nPE - 1) / nPE) = M at hdm ⊢
    omega
  have hdiv : blockSize % nPE = 0 → blockSizeP blockSize nPE = blockSize / nPE := by
    intro hd
    obtain ⟨k, hk⟩ := Nat.dvd_of_mod_eq_zero hd
    subst hk
    rw [blockSizeP]
    have hsplit : nPE * k + nPE - 1 = nPE * k + (nPE - 1) := by
      generalize nPE * k = m
      omega
    rw [hsplit, Nat.mul_add_div (by omega), Nat.div_eq_of_lt (by omega), Nat.add_zero,
        Nat.mul_div_cancel_left _ (by omega : 0 < nPE)]
  refine ⟨rfl, hbounds.1, hbounds.2, ?_, ?_, ?_, by decide, by decide⟩
  · intro h
    simp [blockSizeC, h]
  · intro h1 h2
    simp [blockSizeC, h1, h2]
  · intro hd
    rw [blockSizeC, if_neg (by simp [hd]), hdiv hd]

/-- Witness for claim C3, at blockSize = 8, nPE = 2, core 0. -/
theorem claim_C3_partition_witness :
    blockSizeC 8 2 0 = blockSizeP 8 2 ∧ blockSizeC 8 2 0 = 8 / 2 :=
  ⟨(claim_C3_partition 8 2 0 (by decide) (by decide) (by decide)).2.2.2.1 (by decide),
   (claim_C3_partition 8 2 0 (by decide) (by decide) (by decide)).2.2.2.2.2.1 (by decide)⟩

/-- Claim C7: invoking the parallel entry point from the primary (fabric
controller) context reports the diagnostic and returns without computing:
the caller's output location keeps its old value, no results buffer is
allocated and no workers are forked. -/
theorem claim_C7_wrong_context (mem : Nat → Int) (blockSize fracBits nPE : Nat)
    (resOld : Int) :
    plp_rms_q8_parallel mem blockSize fracBits nPE resOld false
      = { diagnostic := true, allocated := false, forkCalled := false, forkWidth := 0
          resFinal := resOld } :=
  rfl

/-- Claim C6 counterexample: with nPE = 0 (and likewise blockSize = 0) the
dispatcher performs no validation: it emits no diagnostic and still reaches
the fork call instead of reporting an InvalidArgument error before any
computation. -/
theorem claim_C6_counterexample :
    (plp_rms_q8_parallel (fun _ => 1) 8 0 0 5 true).diagnostic = false ∧
    (plp_rms_q8_parallel (fun _ => 1) 8 0 0 5 true).forkCalled = true ∧
    (plp_rms_q8_parallel (fun _ => 1) 0 0 1 5 true).diagnostic = false ∧
    (plp_rms_q8_parallel (fun _ => 1) 0 0 1 5 true).forkCalled = true := by
  decide

/-- Claim C6 (amended): the code performs no argument validation.  With
nPE = 0 the dispatcher emits no diagnostic, still calls the fork primitive
with zero workers, and rewrites the output location with its prior value;
with blockSize = 0 it likewise proceeds (dispatching workers whose kernel
divides by the zero block size) instead of reporting InvalidArgument. -/
theorem claim_C6_amended (mem : Nat → Int) (fracBits : Nat) (resOld : Int) :
    (∀ blockSize, plp_rms_q8_parallel mem blockSize fracBits 0 resOld true
        = { diagnostic := false, allocated := false, forkCalled := true, forkWidth := 0
            resFinal := resOld }) ∧
    (plp_rms_q8_parallel mem 0 fracBits 1 resOld true).diagnostic = false ∧
    (plp_rms_q8_parallel mem 0 fracBits 1 resOld true).forkCalled = true := by
  exact ⟨fun blockSize => rfl, rfl, rfl⟩

/-- Claim C4: with nPE = 1 from a worker-capable context, the parallel entry
point writes exactly the value the single-core kernel computes on the same
source, block size and fracBits — no approximation. -/
theorem claim_C4_single_core_equiv (mem : Nat → Int) (blockSize fracBits : Nat)
    (resOld : Int) (_h : 1 ≤ blockSize) :
    (plp_rms_q8_parallel mem blockSize fracBits 1 resOld true).resFinal
      = plp_rms_q8s_rv32im ((List.range blockSize).map mem) fracBits := by
  have hslice : workerSlice mem blockSize 1 0 = (List.range blockSize).map mem := by
    unfold workerSlice workerReadIndices sliceStart blockSizeC blockSizeP
    simp [Nat.mod_one]
  simp [plp_rms_q8_parallel, plp_rms_q8p_xpulpv2, plp_rms_q8s_xpulpv2, hslice]

/-- Witness for claim C4, at the 8-element all-ones vector. -/
theorem claim_C4_single_core_equiv_witness :
    (plp_rms_q8_parallel (fun _ => 1) 8 0 1 0 true).resFinal
      = plp_rms_q8s_rv32im ((List.range 8).map (fun _ => (1 : Int))) 0 :=
  claim_C4_single_core_equiv (fun _ => 1) 8 0 0 (by decide)

/-- Claim C2: for a cluster-side call with nPE > 1 the final output is the
sum of the nPE per-core partial results divided by nPE with signed division
truncated toward zero, narrowed to signed 8-bit; with nPE = 1 the output is
exactly the single written partial value with no re-division; on the
8-element all-ones vector with fracBits 0 and nPE 2 the result is
(1 + 1) / 2 = 1. -/
theorem claim_C2_reduction (mem : Nat → Int) (blockSize fracBits nPE : Nat)
    (resOld : Int) (hn : 1 < nPE) :
    (plp_rms_q8_parallel mem blockSize fracBits nPE resOld true).resFinal
      = int8ofInt (Int.tdiv
          (((List.range nPE).map (plp_rms_q8p_xpulpv2 mem blockSize fracBits nPE)).foldl
            (· + ·) 0) nPE) ∧
    (∀ r2, (plp_rms_q8_parallel mem blockSize fracBits 1 r2 true).resFinal
        = plp_rms_q8p_xpulpv2 mem blockSize fracBits 1 0) ∧
    (plp_rms_q8_parallel (fun _ => 1) 8 0 2 0 true).resFinal = 1 := by
  refine ⟨?_, ?_, by decide⟩
  · simp [plp_rms_q8_parallel, hn]
  · intro r2
    simp [plp_rms_q8_parallel]

/-- Witness for claim C2: the all-ones scenario with two cores. -/
theorem claim_C2_reduction_witness :
    (plp_rms_q8_parallel (fun _ => 1) 8 0 2 0 true).resFinal = 1 :=
  (claim_C2_reduction (fun _ => 1) 8 0 2 0 (by decide)).2.2

/-- Claim C5 counterexample: at blockSize = 1 and nPE = 3 the code follows
neither of the claim's two policies.  Core 1, whose index is at or beyond
blockSize, is assigned a non-empty slice that reads source index 1 outside
[0, 1); and the interface does not reject nPE > blockSize: the cluster-side
call emits no diagnostic and proceeds to the fork. -/
theorem claim_C5_counterexample :
    (1 : Nat) < 3 ∧ (1 : Nat) ≤ 1 ∧
    blockSizeC 1 3 1 = 1 ∧
    workerReadIndices 1 3 1 = [1] ∧
    ¬ sliceStart 1 3 1 + blockSizeC 1 3 1 ≤ 1 ∧
    (plp_rms_q8_parallel (fun _ => 1) 1 0 3 0 true).forkCalled = true ∧
    (plp_rms_q8_parallel (fun _ => 1) 1 0 3 0 true).diagnostic = false := by
  decide

/-- Claim C5 (amended): for nPE > blockSize ≥ 1, blockSizeP = 1 and every
core except the last owns the single-element slice at its own index — within
bounds only for cores with index below blockSize, so cores with
blockSize ≤ index < nPE - 1 read out of bounds; the last core's slice is
empty; the interface does not reject nPE > blockSize: the dispatcher emits
no diagnostic and proceeds to the fork. -/
theorem claim_C5_amended (blockSize nPE coreId : Nat)
    (hb : 1 ≤ blockSize) (hn : blockSize < nPE) (_hc : coreId < nPE) :
    blockSizeP blockSize nPE = 1 ∧
    (coreId ≠ nPE - 1 →
        blockSizeC blockSize nPE coreId = 1 ∧
        workerReadIndices blockSize nPE coreId = [coreId]) ∧
    blockSizeC blockSize nPE (nPE - 1) = 0 ∧
    workerReadIndices blockSize nPE (nPE - 1) = [] ∧
    (∀ mem fracBits resOld,
        (plp_rms_q8_parallel mem blockSize fracBits nPE resOld true).diagnostic = false ∧
        (plp_rms_q8_parallel mem blockSize fracBits nPE resOld true).forkCalled = true) := by
  have hP : blockSizeP blockSize nPE = 1 := by
    rw [blockSizeP]
    exact Nat.div_eq_of_lt_le (by omega) (by omega)
  have hmod : blockSize % nPE ≠ 0 := by
    rw [Nat.mod_eq_of_lt hn]
    omega
  have hlast : blockSizeC blockSize nPE (nPE - 1) = 0 := by
    rw [blockSizeC, if_pos ⟨rfl, hmod⟩, hP, Nat.mod_one]
  have h2 : 1 < nPE := by omega
  refine ⟨hP, ?_, hlast, ?_, ?_⟩
  · intro h
    have hC : blockSizeC blockSize nPE coreId = 1 := by
      rw [blockSizeC, if_neg (by simp [h]), hP]
    refine ⟨hC, ?_⟩
    rw [workerReadIndices, hC, sliceStart, hP]
    simp [List.range_succ]
  · rw [workerReadIndices, hlast]
    simp
  · intro mem fracBits resOld
    constructor <;> simp [plp_rms_q8_parallel, h2]

/-- Witness for the amended claim C5, at blockSize = 1, nPE = 3. -/
theorem claim_C5_amended_witness :
    blockSizeP 1 3 = 1 ∧ blockSizeC 1 3 2 = 0 :=
  ⟨(claim_C5_amended 1 3 0 (by decide) (by decide) (by decide)).1,
   (claim_C5_amended 1 3 0 (by decide) (by decide) (by decide)).2.2.1⟩

/-- Claim C9: the 8-bit complex-conjugate kernel copies even-indexed (real)
elements unchanged and negates odd-indexed (imaginary) elements, except that
an imaginary value of -128 (INT8_MIN) saturates to 127 (INT8_MAX) instead of
being negated; consequently applying the kernel twice is not the identity on
a vector holding -128 in an imaginary slot. -/
theorem claim_C9_conj (src : List Int) (i : Nat) (h : i < src.length) :
    (plp_cmplx_conj_i8_rv32im src).length = src.length ∧
    (plp_cmplx_conj_i8_rv32im src).getD i 0
      = (if i % 2 = 0 then src.getD i 0
         else if src.getD i 0 = -128 then 127 else -src.getD i 0) ∧
    (i % 2 = 1 → src.getD i 0 = -128 →
      plp_cmplx_conj_i8_rv32im (plp_cmplx_conj_i8_rv32im src) ≠ src) := by
  refine ⟨conjAux_length 1 src, (conjAux_getD src i h).1, ?_⟩
  intro hodd hmin heq
  have hlen : (plp_cmplx_conj_i8_rv32im src).length = src.length := conjAux_length 1 src
  have hi2 : i < (plp_cmplx_conj_i8_rv32im src).length := by omega
  have hnot : ¬ i % 2 = 0 := by omega
  have h1 : (plp_cmplx_conj_i8_rv32im src).getD i 0 = 127 := by
    show (conjAux 1 src).getD i 0 = 127
    rw [(conjAux_getD src i h).1, if_neg hnot, if_pos hmin]
  have h2 : (plp_cmplx_conj_i8_rv32im (plp_cmplx_conj_i8_rv32im src)).getD i 0 = -127 := by
    show (conjAux 1 (plp_cmplx_conj_i8_rv32im src)).getD i 0 = -127
    rw [(conjAux_getD (plp_cmplx_conj_i8_rv32im src) i hi2).1, if_neg hnot, h1]
    norm_num
  rw [heq, hmin] at h2
  norm_num at h2

/-- Witness for claim C9: conjugating [0, -128] twice gives [0, -127]. -/
theorem claim_C9_conj_witness :
    plp_cmplx_conj_i8_rv32im (plp_cmplx_conj_i8_rv32im [0, -128]) ≠ [0, -128] :=
  (claim_C9_conj [0, -128] 1 (by decide)).2.2 (by decide) (by decide)
